import Mathlib

/-!
# Verification of the AI Content Studio generation route

Shallow embedding of the brand-voice analysis and content-generation core
(`app/api/generate/route.ts`): the brand-voice analyzer `analyzeBrandVoice`,
the per-format generator `generateContentForFormat`, and the request
orchestrator `POST`, together with the JSON values they manipulate and the
lenient JSON extraction applied to model replies.

The hosted model (the Model Gateway) is opaque: each call is represented by a
`GwOutcome` supplied as a parameter (the text of the first reply block, a
non-text reply block, or a thrown error).  JavaScript numbers are embedded as
rationals, JavaScript runtime values as the inductive `JSVal`, and fallible
steps as `Option`/`Except`.
-/

namespace ContentStudio

/-- A JavaScript runtime value, as needed by the route: the request body
fields, the values produced by `JSON.parse`, and the brand-voice profile the
analyzer returns all live in this type. -/
inductive JSVal where
  | vnull
  | vundefined
  | vbool (b : Bool)
  | vnum (q : ℚ)
  | vstr (s : String)
  | varr (elems : List JSVal)
  | vobj (fields : List (String × JSVal))

/-- JavaScript truthiness of a value (`NaN` never arises in this model). -/
def jsTruthy : JSVal → Bool
  | .vnull => false
  | .vundefined => false
  | .vbool b => b
  | .vnum q => q ≠ 0
  | .vstr s => !s.isEmpty
  | .varr _ => true
  | .vobj _ => true

/-- Look up a key in an object field list; a later duplicate key wins, as it
does for JavaScript object literals and `JSON.parse`. -/
def getField : List (String × JSVal) → String → JSVal
  | [], _ => .vundefined
  | (k, v) :: rest, key =>
    match getField rest key with
    | .vundefined => if k = key then v else .vundefined
    | r => r

/-- JavaScript property read `v[key]` (on a non-object it yields
`undefined`; the route only reads properties of truthy values, so the
null/undefined `TypeError` case never arises here). -/
def objGet (v : JSVal) (key : String) : JSVal :=
  match v with
  | .vobj fields => getField fields key
  | _ => .vundefined

/-- The string payload of a value, when it is a string. -/
def jsStr? : JSVal → Option String
  | .vstr s => some s
  | _ => none

/-- The structured brand-voice profile of `app/types.ts`
(`BrandVoiceAnalysis`): tone, style, terminology and structure. -/
structure BrandVoiceAnalysis where
  tone : String
  style : String
  terminology : List String
  «structure» : String
deriving DecidableEq

/-- The fixed default profile of `analyzeBrandVoice` (route.ts lines 14-19
and 158-163). -/
def defaultProfile : BrandVoiceAnalysis :=
  ⟨"professional", "clear and concise", [], "standard"⟩

/-- A structured profile as the JavaScript object it denotes. -/
def profileVal (p : BrandVoiceAnalysis) : JSVal :=
  .vobj [("tone", .vstr p.tone), ("style", .vstr p.style),
         ("terminology", .varr (p.terminology.map .vstr)),
         ("structure", .vstr p.«structure»)]

/-- The default profile as a JavaScript value. -/
def defaultProfileJS : JSVal := profileVal defaultProfile

/-- `v` has the field `key` (JSON never produces an explicit
`undefined` field, so absence is exactly `undefined`). -/
def hasField (v : JSVal) (key : String) : Bool :=
  match objGet v key with
  | .vundefined => false
  | _ => true

/-- All four `BrandVoiceProfile` fields are present on `v`. -/
def isCompleteProfile (v : JSVal) : Bool :=
  hasField v "tone" && hasField v "style" &&
  hasField v "terminology" && hasField v "structure"

/-! ## `JSON.parse`

A parser over character lists mirroring the JSON grammar accepted by
`JSON.parse` (whitespace between tokens, strings with escapes, numbers,
literals, arrays, objects; the whole input must be consumed).  Recursion is
bounded by a fuel parameter that exceeds the input length, which suffices
because every recursive call consumes at least one character. -/

/-- The insignificant whitespace characters of the JSON grammar. -/
def isJsonWs (c : Char) : Bool :=
  c = ' ' || c = '\t' || c = '\n' || c = '\r'

/-- Skip insignificant JSON whitespace. -/
def skipWs (cs : List Char) : List Char := cs.dropWhile isJsonWs

/-- Value of a hexadecimal digit. -/
def hexVal? (c : Char) : Option Nat :=
  if '0' ≤ c ∧ c ≤ '9' then some (c.toNat - '0'.toNat)
  else if 'a' ≤ c ∧ c ≤ 'f' then some (c.toNat - 'a'.toNat + 10)
  else if 'A' ≤ c ∧ c ≤ 'F' then some (c.toNat - 'A'.toNat + 10)
  else none

/-- The character denoted by a single-character JSON escape. -/
def escChar : Char → Option Char
  | '"' => some '"'
  | '\\' => some '\\'
  | '/' => some '/'
  | 'b' => some '\x08'
  | 'f' => some '\x0c'
  | 'n' => some '\n'
  | 'r' => some '\r'
  | 't' => some '\t'
  | _ => none

/-- Parse the body of a JSON string after the opening quote, up to and
including the closing quote; returns the decoded characters and the rest.
Raw control characters are rejected, as `JSON.parse` rejects them. -/
def parseStrBody : List Char → Option (List Char × List Char)
  | [] => none
  | c :: rest =>
    if c = '"' then some ([], rest)
    else if c = '\\' then
      match rest with
      | 'u' :: h1 :: h2 :: h3 :: h4 :: rest2 =>
        match hexVal? h1, hexVal? h2, hexVal? h3, hexVal? h4 with
        | some a, some b, some x, some y =>
          (parseStrBody rest2).map fun p =>
            (Char.ofNat (((a * 16 + b) * 16 + x) * 16 + y) :: p.1, p.2)
        | _, _, _, _ => none
      | e :: rest2 =>
        match escChar e with
        | some d => (parseStrBody rest2).map fun p => (d :: p.1, p.2)
        | none => none
      | [] => none
    else if c.toNat < 32 then none
    else (parseStrBody rest).map fun p => (c :: p.1, p.2)

/-- Natural number denoted by a digit string. -/
def digitsToNat (cs : List Char) : Nat :=
  cs.foldl (fun acc c => acc * 10 + (c.toNat - '0'.toNat)) 0

/-- Parse a JSON number (integer part, optional fraction, optional
exponent), returning its exact rational value. -/
def parseNum (cs : List Char) : Option (JSVal × List Char) :=
  let (neg, cs1) :=
    match cs with
    | '-' :: r => (true, r)
    | _ => (false, cs)
  let intPart := cs1.takeWhile Char.isDigit
  let cs2 := cs1.dropWhile Char.isDigit
  if intPart.isEmpty then none
  else if intPart.length > 1 && intPart.head? = some '0' then none
  else
    let iv : ℚ := (digitsToNat intPart : ℚ)
    let (fv, cs3) : ℚ × List Char :=
      match cs2 with
      | '.' :: r =>
        let frac := r.takeWhile Char.isDigit
        ((digitsToNat frac : ℚ) / ((10 : ℚ) ^ frac.length), r.dropWhile Char.isDigit)
      | _ => (0, cs2)
    let fracOk : Bool :=
      match cs2 with
      | '.' :: r => !(r.takeWhile Char.isDigit).isEmpty
      | _ => true
    let (expOk, ev, cs4) : Bool × ℤ × List Char :=
      match cs3 with
      | 'e' :: r | 'E' :: r =>
        let (eneg, r1) :=
          match r with
          | '+' :: r2 => (false, r2)
          | '-' :: r2 => (true, r2)
          | _ => (false, r)
        let ds := r1.takeWhile Char.isDigit
        if ds.isEmpty then (false, 0, r1)
        else (true, if eneg then -(digitsToNat ds : ℤ) else (digitsToNat ds : ℤ),
              r1.dropWhile Char.isDigit)
      | _ => (true, 0, cs3)
    if fracOk && expOk then
      let mag : ℚ := (iv + fv) * (10 : ℚ) ^ ev
      some (.vnum (if neg then -mag else mag), cs4)
    else none

mutual

/-- Parse one JSON value. -/
def parseVal : Nat → List Char → Option (JSVal × List Char)
  | 0, _ => none
  | fuel + 1, cs =>
    match skipWs cs with
    | [] => none
    | c :: rest =>
      if c = '{' then
        match skipWs rest with
        | '}' :: r2 => some (.vobj [], r2)
        | r2 => (parseMembers fuel r2).map fun p => (.vobj p.1, p.2)
      else if c = '[' then
        match skipWs rest with
        | ']' :: r2 => some (.varr [], r2)
        | r2 => (parseElems fuel r2).map fun p => (.varr p.1, p.2)
      else if c = '"' then
        (parseStrBody rest).map fun p => (.vstr (String.mk p.1), p.2)
      else if c = 'n' then
        match rest with
        | 'u' :: 'l' :: 'l' :: r2 => some (.vnull, r2)
        | _ => none
      else if c = 't' then
        match rest with
        | 'r' :: 'u' :: 'e' :: r2 => some (.vbool true, r2)
        | _ => none
      else if c = 'f' then
        match rest with
        | 'a' :: 'l' :: 's' :: 'e' :: r2 => some (.vbool false, r2)
        | _ => none
      else parseNum (c :: rest)

/-- Parse the elements of a non-empty JSON array, up to and including the
closing bracket. -/
def parseElems : Nat → List Char → Option (List JSVal × List Char)
  | 0, _ => none
  | fuel + 1, cs =>
    match parseVal fuel cs with
    | none => none
    | some (v, rest) =>
      match skipWs rest with
      | ',' :: r2 => (parseElems fuel r2).map fun p => (v :: p.1, p.2)
      | ']' :: r2 => some ([v], r2)
      | _ => none

/-- Parse the members of a non-empty JSON object, up to and including the
closing brace. -/
def parseMembers : Nat → List Char → Option (List (String × JSVal) × List Char)
  | 0, _ => none
  | fuel + 1, cs =>
    match skipWs cs with
    | '"' :: rest =>
      match parseStrBody rest with
      | none => none
      | some (k, r2) =>
        match skipWs r2 with
        | ':' :: r3 =>
          match parseVal fuel r3 with
          | none => none
          | some (v, r4) =>
            match skipWs r4 with
            | ',' :: r5 => (parseMembers fuel r5).map fun p => ((String.mk k, v) :: p.1, p.2)
            | '}' :: r5 => some ([(String.mk k, v)], r5)
            | _ => none
        | _ => none
    | _ => none

end

/-- `JSON.parse` on a character list: parse one value and require that only
whitespace remains.  The fuel `cs.length + 1` is sufficient since every
recursive call consumes at least one character of input. -/
def jsonParseChars (cs : List Char) : Option JSVal :=
  match parseVal (cs.length + 1) cs with
  | some (v, rest) => if (skipWs rest).isEmpty then some v else none
  | none => none

/-! ## Lenient JSON extraction (route.ts lines 134-145)

The route trims the reply, applies the fenced-block regex
`/(three backticks)(json)?\s*(\x7b[\s\S]*\x7d)\s*(three backticks)/` keeping
capture group 1 on a match, then applies `/\x7b[\s\S]*\x7d/` keeping the
whole match, and finally `JSON.parse`s the resulting text.  Both regexes are
greedy, so the second one spans from the first open brace to the last close
brace.  The functions below implement exactly the leftmost-greedy matching
of those two patterns. -/

/-- The characters matched by the JavaScript regex class `\s` that can occur
in this model (ASCII whitespace; `String.prototype.trim` strips the same
set). -/
def jsWs (c : Char) : Bool :=
  c = ' ' || c = '\t' || c = '\n' || c = '\r' || c = '\x0b' || c = '\x0c'

/-- `String.prototype.trim` on a character list. -/
def jsTrim (cs : List Char) : List Char :=
  ((cs.dropWhile jsWs).reverse.dropWhile jsWs).reverse

/-- `needle` is a prefix of `hay`. -/
def beginsWith : List Char → List Char → Bool
  | [], _ => true
  | _ :: _, [] => false
  | c :: cs, d :: ds => c = d && beginsWith cs ds

/-- After the closing brace of the fenced capture group the pattern demands
`\s*` followed by three backticks; whitespace characters are not backticks,
so this holds exactly when the first non-whitespace characters are three
backticks. -/
def closeOk (cs : List Char) : Bool :=
  beginsWith ['`', '`', '`'] (cs.dropWhile jsWs)

/-- Scan for the last `\x7d` whose remainder satisfies `closeOk` (the greedy
`[\s\S]*` of the fence pattern backtracks from the end); returns the
characters up to and including that brace, and the remainder. -/
def findLastBrace : List Char → Option (List Char × List Char)
  | [] => none
  | c :: rest =>
    match findLastBrace rest with
    | some (pre, post) => some (c :: pre, post)
    | none => if c = '}' && closeOk rest then some ([c], rest) else none

/-- Attempt to match the fenced-block pattern at the start of `cs`,
returning capture group 1 (the braced text).  The optional `json` tag is
consumed greedily; no backtracking over it is needed, because when `json` is
present the non-consuming alternative sees the letter `j` where `\s*` must
end at `\x7b`, and fails. -/
def stripJsonTag (cs : List Char) : List Char :=
  match cs with
  | 'j' :: 's' :: 'o' :: 'n' :: r => r
  | _ => cs

def matchFenceAt (cs : List Char) : Option (List Char) :=
  match cs with
  | '`' :: '`' :: '`' :: rest =>
    match (stripJsonTag rest).dropWhile jsWs with
    | '{' :: body =>
      match findLastBrace body with
      | some (grp, _) => some ('{' :: grp)
      | none => none
    | _ => none
  | _ => none

/-- Leftmost match of the fenced-block pattern: try every start position in
order. -/
def fenceMatch : List Char → Option (List Char)
  | [] => none
  | c :: rest =>
    match matchFenceAt (c :: rest) with
    | some g => some g
    | none => fenceMatch rest

/-- Leftmost-greedy match of `/\x7b[\s\S]*\x7d/`: the span from the first
open brace to the last close brace, when the latter comes after the
former. -/
def braceSpan (cs : List Char) : Option (List Char) :=
  if (((cs.dropWhile (fun c => c ≠ '{')).reverse.dropWhile (fun c => c ≠ '}')).reverse).isEmpty
  then none
  else some ((cs.dropWhile (fun c => c ≠ '{')).reverse.dropWhile (fun c => c ≠ '}')).reverse

/-- The trimmed reply after the fenced-block regex: capture group 1 on a
match, the input otherwise. -/
def afterFence (cs : List Char) : List Char :=
  match fenceMatch cs with
  | some g => g
  | none => cs

/-- The text the route submits to `JSON.parse`: trim, then the fenced-block
capture if any, then the brace span if any (route.ts lines 134-144). -/
def extractTextChars (cs : List Char) : List Char :=
  match braceSpan (afterFence (jsTrim cs)) with
  | some g => g
  | none => afterFence (jsTrim cs)

/-! ## The Model Gateway and `analyzeBrandVoice` -/

/-- Outcome of one `anthropic.messages.create` call: the first content block
is a text block with the given text, the first content block is not a text
block, or the call threw an error with the given message. -/
inductive GwOutcome where
  | textReply (text : String)
  | nonText
  | err (msg : String)

/-- The normalization and filtering of examples inside `analyzeBrandVoice`
(route.ts lines 23-30): wrap raw strings as text examples, then keep only
examples that are truthy and have a truthy `content` or `text` property.
Note the filter probes `ex.text`, a property the structured
`BrandVoiceExample` shape never carries. -/
def processedExamples (examples : List JSVal) : List JSVal :=
  (examples.map fun ex =>
      match ex with
      | .vstr s => .vobj [("type", .vstr "text"), ("content", .vstr s)]
      | _ => ex).filter
    fun ex => jsTruthy ex && (jsTruthy (objGet ex "content") || jsTruthy (objGet ex "text"))

/-- `analyzeBrandVoice` (route.ts lines 10-164).  Returns the resulting
profile value together with whether the Model Gateway was invoked.  The
prompt assembly (lines 33-118) only feeds the opaque gateway call and is not
observable here; the early return on an empty list (lines 12-20) is the only
path that skips the gateway.  On a text reply the extracted text is parsed
and the parsed value returned without any shape validation (lines 132-146);
every failure path returns the default profile (lines 148-163). -/
def analyzeBrandVoice (examples : List JSVal) (gw : GwOutcome) : JSVal × Bool :=
  if examples.isEmpty then (defaultProfileJS, false)
  else
    match gw with
    | .textReply t =>
      (match jsonParseChars (extractTextChars t.data) with
       | some v => v
       | none => defaultProfileJS, true)
    | .nonText => (defaultProfileJS, true)
    | .err _ => (defaultProfileJS, true)

/-! ## `generateContentForFormat` (route.ts lines 167-273) -/

/-- One generation result (`GeneratedContent` of `app/types.ts`, as the
route populates it: the optional `title` field is never set). -/
structure GeneratedContent where
  format : String
  content : String
  consistencyScore : Option ℚ
deriving DecidableEq

/-- `String.prototype.toLowerCase` (ASCII case mapping; the terminology and
content used by the route are ASCII). -/
def jsToLower (s : String) : String := String.mk (s.data.map Char.toLower)

/-- `needle` occurs as a contiguous substring of `hay`. -/
def subSearch (needle : List Char) : List Char → Bool
  | [] => needle.isEmpty
  | c :: rest => beginsWith needle (c :: rest) || subSearch needle rest

/-- `String.prototype.includes`. -/
def jsIncludes (hay needle : String) : Bool := subSearch needle.data hay.data

/-- The error item returned when the gateway call for one format throws
(route.ts lines 262-265). -/
def errorContent (format msg : String) : GeneratedContent :=
  ⟨format, "Error generating " ++ format ++ " content: " ++ msg ++
    ". Please check your API key and try again.", none⟩

/-- The fallback item returned when the first reply block is not text
(route.ts lines 269-272). -/
def fallbackContent (format : String) : GeneratedContent :=
  ⟨format, "Error generating " ++ format ++ " content. Please try again.", none⟩

/-- The part of `generateContentForFormat` from the gateway call onward,
once the brand-voice context has been built without throwing:
`bvTruthy` is the truthiness of the `brandVoice` argument and `terms` the
elements of its `terminology` array (`none` when `brandVoice` is falsy).
On a text reply the consistency score is computed (route.ts lines 234-246):
with a truthy profile and non-empty terminology it is
`min 95 (70 + (matching / total) * 25)` over case-insensitive substring
matches; the `filter` callback calls `term.toLowerCase()`, which throws a
`TypeError` inside the `try` when a term is not a string, so that case falls
into the same `catch` as a gateway error. -/
def generateAfterContext (format : String) (terms : Option (List JSVal))
    (gw : GwOutcome) : GeneratedContent :=
  match gw with
  | .err m => errorContent format m
  | .nonText => fallbackContent format
  | .textReply t =>
    match terms with
    | none => ⟨format, t, none⟩
    | some l =>
      if l.isEmpty then ⟨format, t, some 75⟩
      else if l.all fun tv => (jsStr? tv).isSome then
        let contentText := jsToLower t
        let matching :=
          (l.filter fun tv => jsIncludes contentText (jsToLower ((jsStr? tv).getD ""))).length
        ⟨format, t, some (min 95 (70 + ((matching : ℚ) / (l.length : ℚ)) * 25))⟩
      else errorContent format "term.toLowerCase is not a function"

/-- `generateContentForFormat` (route.ts lines 167-273).  The prompt
assembly only feeds the opaque gateway call, except that building the
brand-voice context (lines 184-193) evaluates
`brandVoice.terminology.join(", ")` *outside* the `try` block: when
`brandVoice` is truthy but its `terminology` is not an array this throws a
`TypeError`, which escapes the function (`Except.error`; the exact JS
`TypeError` text depends on the shape and runtime, it is modelled by one
representative message).  All other paths return a `GeneratedContent`
(`Except.ok`); the declared `| null` result type is never produced. -/
def generateContentForFormat (topic industry format : String)
    (brandVoice : Option JSVal) (gw : GwOutcome) : Except String GeneratedContent :=
  match brandVoice with
  | none => .ok (generateAfterContext format none gw)
  | some v =>
    if jsTruthy v then
      match objGet v "terminology" with
      | .varr terms => .ok (generateAfterContext format (some terms) gw)
      | _ => .error "brandVoice.terminology.join is not a function"
    else .ok (generateAfterContext format none gw)

/-! ## Scoring, spec-side

`specConsistencyScore` follows the specification's words
("`consistencyScore = min(95, 70 + 25 * matchedTermFraction)`, where
`matchedTermFraction` is the fraction of the profile's terminology entries
that appear (case-insensitively) as substrings anywhere in the generated
text") for comparison against the code path above. -/

/-- Fraction of terminology entries occurring case-insensitively as
substrings of the text. -/
def matchedTermFraction (terms : List String) (text : String) : ℚ :=
  ((terms.filter fun s => jsIncludes (jsToLower text) (jsToLower s)).length : ℚ) /
    (terms.length : ℚ)

/-- The consistency-score formula as the specification states it. -/
def specConsistencyScore (terms : List String) (text : String) : ℚ :=
  min 95 (70 + 25 * matchedTermFraction terms text)

/-! ## The request orchestrator `POST` (route.ts lines 275-351) -/

/-- The request body fields the route destructures.  Absent JSON fields are
`none`.  `formats` is modelled as an optional string list and
`brandVoiceExamples` as an optional list of arbitrary JavaScript values
(the route treats a present non-array `brandVoiceExamples` the same as an
absent one, so that case is folded into `none`). -/
structure RequestBody where
  topic : Option String
  industry : Option String
  formats : Option (List String)
  brandVoice : Option JSVal
  brandVoiceExamples : Option (List JSVal)

/-- An HTTP response from the route: a JSON success payload
(`contents` plus optional `brandVoiceAnalysis`), or an error payload with
its status code. -/
inductive HttpResponse where
  | ok (contents : List GeneratedContent) (brandVoiceAnalysis : Option JSVal)
  | err (msg : String) (status : Nat)

/-- Wrap one legacy example as a text example
(route.ts line 293: `(\x7b type: 'text', content: ex \x7d)`). -/
def wrapTextExample (v : JSVal) : JSVal :=
  .vobj [("type", .vstr "text"), ("content", v)]

/-- Normalization of `brandVoiceExamples` (route.ts lines 287-299): for a
present non-empty array, if the *first* element is a string the whole array
is treated as the legacy string-array shape and every element is wrapped as
a text example; otherwise the array is used as-is. -/
def examplesToUse : Option (List JSVal) → List JSVal
  | none => []
  | some xs =>
    if xs.isEmpty then []
    else
      match xs.head? with
      | some (.vstr _) => xs.map wrapTextExample
      | _ => xs

/-- JavaScript truthiness of an optional string field (`undefined` and the
empty string are falsy). -/
def truthyOptStr : Option String → Bool
  | none => false
  | some s => !s.isEmpty

/-- The `!formats || formats.length === 0` test of route.ts lines 302
and 311. -/
def formatsEmpty : Option (List String) → Bool
  | none => true
  | some l => l.isEmpty

/-- Whether a `generateContentForFormat` call reaches its gateway call: it
does unless building the brand-voice context throws first (truthy profile
whose `terminology` is not an array). -/
def genReachesGateway : Option JSVal → Bool
  | none => true
  | some v =>
    if jsTruthy v then
      match objGet v "terminology" with
      | .varr _ => true
      | _ => false
    else true

/-- `Promise.all` over the per-format results: the value list in input
order when every promise fulfils, otherwise the first rejection reason in
input order (all the per-format promises here are settled synchronously in
creation order, so the first rejection in array order wins). -/
def collectResults : List (Except String GeneratedContent) → Except String (List GeneratedContent)
  | [] => .ok []
  | .error m :: _ => .error m
  | .ok g :: rest => (collectResults rest).map fun l => g :: l

/-- The `POST` handler (route.ts lines 275-351), parameterized by whether
the `ANTHROPIC_API_KEY` credential is a truthy string, the outcome of the
(at most one) analysis gateway call, and the outcome of the generation
gateway call for each format.  The second component counts how many Model
Gateway calls the request performed.  The `results.filter(c => c !== null)`
step of line 332 is the identity, since no path of
`generateContentForFormat` produces `null`. -/
def POST (apiKeyPresent : Bool) (body : RequestBody) (agw : GwOutcome)
    (ggw : String → GwOutcome) : HttpResponse × Nat :=
  if !apiKeyPresent then
    (.err "ANTHROPIC_API_KEY is not configured. Please set it in your .env.local file." 500, 0)
  else
    let e := examplesToUse body.brandVoiceExamples
    if !e.isEmpty && formatsEmpty body.formats then
      (.ok [] (some (analyzeBrandVoice e agw).1), 1)
    else if !truthyOptStr body.topic || !truthyOptStr body.industry ||
        formatsEmpty body.formats then
      (.err "Missing required fields: topic, industry, and at least one format are required" 400, 0)
    else
      let topic := body.topic.getD ""
      let industry := body.industry.getD ""
      let fl := body.formats.getD []
      let bvAndCalls : Option JSVal × Nat :=
        if !e.isEmpty then (some (analyzeBrandVoice e agw).1, 1)
        else
          match body.brandVoice with
          | some v => (if jsTruthy v then some v else none, 0)
          | none => (none, 0)
      let bv := bvAndCalls.1
      let gcalls := if genReachesGateway bv then fl.length else 0
      match collectResults (fl.map fun f => generateContentForFormat topic industry f bv (ggw f)) with
      | .error m => (.err ("Internal server error: " ++ m) 500, bvAndCalls.2 + gcalls)
      | .ok contents => (.ok contents bv, bvAndCalls.2 + gcalls)

/-! ## Model-reply families for the extraction theorems

To quantify over model replies, a profile is rendered as the JSON object
text the analyzer's prompt demands.  `SafeChar` restricts the profile's
field strings to characters that need no JSON string escaping and play no
role in the two extraction regexes (printable, no quote, no backslash, no
backtick). -/

def SafeChar (c : Char) : Prop := 32 ≤ c.toNat ∧ c ≠ '"' ∧ c ≠ '\\' ∧ c ≠ '`'

instance : DecidablePred SafeChar := fun c => by
  unfold SafeChar
  infer_instance

def SafeStr (s : String) : Prop := ∀ c ∈ s.data, SafeChar c

def SafeProfile (p : BrandVoiceAnalysis) : Prop :=
  SafeStr p.tone ∧ SafeStr p.style ∧ (∀ t ∈ p.terminology, SafeStr t) ∧
    SafeStr p.«structure»

instance : DecidablePred SafeStr := fun s => by
  unfold SafeStr
  infer_instance

instance (p : BrandVoiceAnalysis) : Decidable (SafeProfile p) := by
  unfold SafeProfile
  infer_instance

/-- A JSON string literal (no escaping needed for safe contents). -/
def renderStr (s : String) : List Char := '"' :: s.data ++ ['"']

/-- A comma-separated list of JSON string literals. -/
def renderTerms : List String → List Char
  | [] => []
  | [t] => renderStr t
  | t :: t2 :: ts => renderStr t ++ ',' :: renderTerms (t2 :: ts)

/-- The members of the rendered profile object, in the order the prompt
demands (`tone`, `style`, `terminology`, `structure`), without
whitespace. -/
def renderMembers (p : BrandVoiceAnalysis) : List Char :=
  '"' :: ("tone".data ++ '"' :: ':' :: '"' :: (p.tone.data ++ '"' :: ',' ::
  '"' :: ("style".data ++ '"' :: ':' :: '"' :: (p.style.data ++ '"' :: ',' ::
  '"' :: ("terminology".data ++ '"' :: ':' :: '[' :: (renderTerms p.terminology ++ ']' :: ',' ::
  '"' :: ("structure".data ++ '"' :: ':' :: '"' :: (p.«structure».data ++ ['"']))))))))

/-- The rendered profile object `\x7b"tone":…,"style":…,"terminology":[…],"structure":…\x7d`. -/
def renderProfile (p : BrandVoiceAnalysis) : List Char :=
  '{' :: renderMembers p ++ ['}']

/-- Opening of a markdown code fence with the `json` tag. -/
def fenceOpen : List Char := '`' :: '`' :: '`' :: 'j' :: 's' :: 'o' :: 'n' :: '\n' :: []

/-- Closing of a markdown code fence. -/
def fenceClose : List Char := '\n' :: '`' :: '`' :: '`' :: []

/-! ## Helper lemmas -/

theorem jsTruthy_profileVal (p : BrandVoiceAnalysis) : jsTruthy (profileVal p) = true := rfl

theorem objGet_profileVal_terminology (p : BrandVoiceAnalysis) :
    objGet (profileVal p) "terminology" = .varr (p.terminology.map .vstr) := rfl

theorem generate_profileVal (topic industry format : String) (p : BrandVoiceAnalysis)
    (gw : GwOutcome) :
    generateContentForFormat topic industry format (some (profileVal p)) gw =
      .ok (generateAfterContext format (some (p.terminology.map .vstr)) gw) := rfl

theorem all_isSome_map_vstr (l : List String) :
    (l.map JSVal.vstr).all (fun tv => (jsStr? tv).isSome) = true := by
  simp [List.all_map, Function.comp, jsStr?]

theorem filter_map_vstr (l : List String) (q : JSVal → Bool) :
    ((l.map JSVal.vstr).filter q).length = (l.filter fun s => q (.vstr s)).length := by
  rw [List.filter_map]
  rw [List.length_map]
  rfl

/-- **C1.** With a profile having non-empty terminology, the consistency
score of `generateContentForFormat` equals `min(95, 70 + 25 * f)` where `f`
is the fraction of terminology entries occurring case-insensitively as
substrings of the generated text; with a profile having empty terminology
the score is exactly 75; with no profile the score field is absent. -/
theorem c1_consistency_score_formula (topic industry format : String)
    (p : BrandVoiceAnalysis) (t : String) :
    (p.terminology ≠ [] →
      generateContentForFormat topic industry format (some (profileVal p)) (.textReply t) =
        .ok ⟨format, t, some (specConsistencyScore p.terminology t)⟩) ∧
    (p.terminology = [] →
      generateContentForFormat topic industry format (some (profileVal p)) (.textReply t) =
        .ok ⟨format, t, some 75⟩) ∧
    generateContentForFormat topic industry format none (.textReply t) =
      .ok ⟨format, t, none⟩ := by
  refine ⟨fun hne => ?_, fun he => ?_, rfl⟩
  · rw [generate_profileVal]
    have hempty : (p.terminology.map JSVal.vstr).isEmpty = false := by
      simp [List.isEmpty_iff, hne]
    have hfilter := filter_map_vstr p.terminology
      (fun tv => jsIncludes (jsToLower t) (jsToLower ((jsStr? tv).getD "")))
    simp only [generateAfterContext, hempty, Bool.false_eq_true, if_false,
      all_isSome_map_vstr, if_true, hfilter, List.length_map]
    have harg : ∀ x : ℚ, 70 + x * 25 = 70 + 25 * x := fun x => by ring
    rw [harg]
    rfl
  · rw [generate_profileVal]
    simp [generateAfterContext, he]

/-- Witness for C1 at the terminology `["alpha","beta","gamma","delta"]`
with a text matching exactly `alpha` and `gamma`: the score is
`min(95, 70 + 25*0.5) = 82.5`. -/
theorem c1_consistency_score_formula_witness :
    generateContentForFormat "cloud" "SaaS" "blog"
        (some (profileVal ⟨"bold", "crisp", ["alpha", "beta", "gamma", "delta"], "loose"⟩))
        (.textReply "We combine alpha with Gamma daily.") =
      .ok ⟨"blog", "We combine alpha with Gamma daily.", some ((165 : ℚ) / 2)⟩ := by
  have h := (c1_consistency_score_formula "cloud" "SaaS" "blog"
    ⟨"bold", "crisp", ["alpha", "beta", "gamma", "delta"], "loose"⟩
    "We combine alpha with Gamma daily.").1 (by decide)
  rw [h]
  have hc : (List.filter
      (fun s => jsIncludes (jsToLower "We combine alpha with Gamma daily.") (jsToLower s))
      ["alpha", "beta", "gamma", "delta"]).length = 2 := by decide
  simp only [specConsistencyScore, matchedTermFraction, hc, List.length_cons,
    List.length_nil]
  norm_num [min_def]

theorem generateAfterContext_score (format : String) (terms : Option (List JSVal))
    (gw : GwOutcome) (q : ℚ)
    (hs : (generateAfterContext format terms gw).consistencyScore = some q) :
    70 ≤ q ∧ q ≤ 95 := by
  unfold generateAfterContext at hs
  cases gw with
  | err m => simp [errorContent] at hs
  | nonText => simp [fallbackContent] at hs
  | textReply t =>
    cases terms with
    | none => simp at hs
    | some l =>
      by_cases hl : l.isEmpty
      · simp [hl] at hs
        subst hs
        norm_num
      · simp only [hl, Bool.false_eq_true, if_false] at hs
        by_cases hall : l.all (fun tv => (jsStr? tv).isSome)
        · simp only [hall, if_true] at hs
          simp only [Option.some.injEq] at hs
          subst hs
          have hx : (0 : ℚ) ≤
              ((List.filter (fun tv =>
                jsIncludes (jsToLower t) (jsToLower ((jsStr? tv).getD ""))) l).length : ℚ) /
                (l.length : ℚ) * 25 := by positivity
          constructor
          · exact le_min (by norm_num) (by linarith)
          · exact min_le_left _ _
        · simp [hall, errorContent] at hs

/-- **C10.** Whenever a `consistencyScore` is present on a
`GeneratedContent` returned by `generateContentForFormat`, it lies in
`[70, 95]` (the capped formula `70 + 25*f` with `f ∈ [0,1]` and the
constant 75 both do), a strictly tighter range than the specification's
stated `[0, 95]`. -/
theorem c10_score_bounds (topic industry format : String) (bv : Option JSVal)
    (gw : GwOutcome) (g : GeneratedContent) (q : ℚ)
    (hok : generateContentForFormat topic industry format bv gw = .ok g)
    (hs : g.consistencyScore = some q) : 70 ≤ q ∧ q ≤ 95 := by
  unfold generateContentForFormat at hok
  cases bv with
  | none =>
    simp only [Except.ok.injEq] at hok
    subst hok
    exact generateAfterContext_score format none gw q hs
  | some v =>
    by_cases hv : jsTruthy v
    · simp only [hv, if_true] at hok
      cases hobj : objGet v "terminology" with
      | varr terms =>
        rw [hobj] at hok
        simp only [Except.ok.injEq] at hok
        subst hok
        exact generateAfterContext_score format (some terms) gw q hs
      | vnull => rw [hobj] at hok; simp at hok
      | vundefined => rw [hobj] at hok; simp at hok
      | vbool b => rw [hobj] at hok; simp at hok
      | vnum n => rw [hobj] at hok; simp at hok
      | vstr s => rw [hobj] at hok; simp at hok
      | vobj fs => rw [hobj] at hok; simp at hok
    · simp only [hv, Bool.false_eq_true, if_false, Except.ok.injEq] at hok
      subst hok
      exact generateAfterContext_score format none gw q hs

/-- Witness for C10 at a profile with empty terminology: the score 75 lies
in `[70, 95]`. -/
theorem c10_score_bounds_witness : (70 : ℚ) ≤ 75 ∧ (75 : ℚ) ≤ 95 :=
  c10_score_bounds "t" "i" "blog" (some defaultProfileJS) (.textReply "hi")
    ⟨"blog", "hi", some 75⟩ 75 rfl rfl

/-- **C9.** The orchestrator decides between the legacy and structured
example shapes by inspecting only the first element: when the first element
is a string, every element of the list (string or not) is wrapped as a
text example; when the first element is not a string, the list is used
unchanged. -/
theorem c9_legacy_dispatch_first_element (s : String) (xs : List JSVal)
    (v : JSVal) (ys : List JSVal) :
    examplesToUse (some (.vstr s :: xs)) = (JSVal.vstr s :: xs).map wrapTextExample ∧
    (jsStr? v = none → examplesToUse (some (v :: ys)) = v :: ys) := by
  refine ⟨rfl, fun hv => ?_⟩
  cases v with
  | vstr s2 => simp [jsStr?] at hv
  | vnull => rfl
  | vundefined => rfl
  | vbool b => rfl
  | vnum q => rfl
  | varr l => rfl
  | vobj fs => rfl

/-- Witness for C9: a heterogeneous list led by a string is wrapped
elementwise, while a list led by a number is kept as-is. -/
theorem c9_legacy_dispatch_first_element_witness :
    examplesToUse (some [JSVal.vstr "a", JSVal.vnum 1]) =
      [wrapTextExample (.vstr "a"), wrapTextExample (.vnum 1)] ∧
    examplesToUse (some [JSVal.vnum 2]) = [JSVal.vnum 2] :=
  ⟨(c9_legacy_dispatch_first_element "a" [JSVal.vnum 1] (.vnum 2) []).1,
   (c9_legacy_dispatch_first_element "a" [JSVal.vnum 1] (.vnum 2) []).2 rfl⟩

/-- **C2 counterexample.** The claim asserts that any example list whose
every element has empty content is answered with the default profile
without invoking the gateway; but for `[""]` (one empty string), the
filtered example set is empty, yet `analyzeBrandVoice` still invokes the
gateway and returns whatever the reply parses to. -/
theorem c2_counterexample :
    processedExamples [JSVal.vstr ""] = [] ∧
    (analyzeBrandVoice [JSVal.vstr ""]
      (.textReply "\x7b\"tone\": \"casual\"\x7d")).2 = true ∧
    (analyzeBrandVoice [JSVal.vstr ""]
      (.textReply "\x7b\"tone\": \"casual\"\x7d")).1 ≠ defaultProfileJS := by
  refine ⟨rfl, rfl, fun h => ?_⟩
  have hL : hasField (analyzeBrandVoice [JSVal.vstr ""]
      (.textReply "\x7b\"tone\": \"casual\"\x7d")).1 "style" = false := rfl
  rw [h] at hL
  exact absurd hL (by decide)

/-- **C2 (amended).** Only the empty example list short-circuits: on `[]`
the analyzer returns the default profile without invoking the gateway,
while every non-empty list — even one whose every element has empty
content — invokes the gateway. -/
theorem c2_amended_empty_shortcut (gw : GwOutcome) (examples : List JSVal) :
    analyzeBrandVoice [] gw = (defaultProfileJS, false) ∧
    (analyzeBrandVoice examples gw).2 = !examples.isEmpty := by
  refine ⟨rfl, ?_⟩
  cases h : examples.isEmpty <;> cases gw <;> simp [analyzeBrandVoice, h]

/-- **C3 counterexample.** A model reply whose extracted JSON parses but is
missing fields is returned as-is by `analyzeBrandVoice` (there is no shape
validation), so the returned profile is missing `style`, `terminology` and
`structure` rather than being replaced by the default wholesale. -/
theorem c3_counterexample :
    (analyzeBrandVoice [JSVal.vstr "hello"]
      (.textReply "\x7b\"tone\": \"casual\"\x7d")).1 =
      .vobj [("tone", .vstr "casual")] ∧
    isCompleteProfile (.vobj [("tone", .vstr "casual")]) = false :=
  ⟨rfl, rfl⟩

/-- **C3 (amended).** The analyzer never merges field-by-field: whenever
the returned profile differs from the wholesale default, it is exactly the
JSON value parsed from the extracted reply text, returned without any
field validation (and so possibly missing fields). -/
theorem c3_amended_wholesale_or_parsed (examples : List JSVal) (gw : GwOutcome)
    (h : (analyzeBrandVoice examples gw).1 ≠ defaultProfileJS) :
    ∃ t, gw = .textReply t ∧
      jsonParseChars (extractTextChars t.data) =
        some ((analyzeBrandVoice examples gw).1) := by
  by_cases he : examples.isEmpty
  · simp [analyzeBrandVoice, he] at h
  · cases gw with
    | textReply t =>
      refine ⟨t, rfl, ?_⟩
      cases hp : jsonParseChars (extractTextChars t.data) with
      | some v => simp [analyzeBrandVoice, he, hp]
      | none => simp [analyzeBrandVoice, he, hp] at h
    | nonText => simp [analyzeBrandVoice, he] at h
    | err m => simp [analyzeBrandVoice, he] at h

/-- Witness for the amended C3: a tone-only reply is returned verbatim as
the parse of the extracted text. -/
theorem c3_amended_wholesale_or_parsed_witness :
    ∃ t, GwOutcome.textReply "\x7b\"tone\": \"casual\"\x7d" = .textReply t ∧
      jsonParseChars (extractTextChars t.data) =
        some ((analyzeBrandVoice [JSVal.vstr "hello"]
          (.textReply "\x7b\"tone\": \"casual\"\x7d")).1) := by
  refine c3_amended_wholesale_or_parsed [JSVal.vstr "hello"] _ (fun h => ?_)
  have hL : hasField (analyzeBrandVoice [JSVal.vstr "hello"]
      (.textReply "\x7b\"tone\": \"casual\"\x7d")).1 "style" = false := rfl
  rw [h] at hL
  exact absurd hL (by decide)

/-- **C7.** When brand-voice examples are present and `formats` is empty or
absent, `POST` runs the analyze-only branch: it returns an empty `contents`
list together with the freshly computed analysis (one gateway call), for
any `topic` and `industry` — the generate-mode validation is never
reached. -/
theorem c7_analyze_only_branch (body : RequestBody) (agw : GwOutcome)
    (ggw : String → GwOutcome)
    (hex : examplesToUse body.brandVoiceExamples ≠ [])
    (hfmt : formatsEmpty body.formats = true) :
    POST true body agw ggw =
      (.ok [] (some (analyzeBrandVoice (examplesToUse body.brandVoiceExamples) agw).1), 1) := by
  have he : (examplesToUse body.brandVoiceExamples).isEmpty = false := by
    simp [List.isEmpty_iff, hex]
  simp [POST, he, hfmt]

/-- Witness for C7: two valid text examples and `formats = []`, with
`topic`/`industry` absent, yield `contents = []` and the analysis of the
reply. -/
theorem c7_analyze_only_branch_witness :
    POST true ⟨none, none, some [], none, some [JSVal.vstr "We ship fast.", JSVal.vstr "Bold moves."]⟩
        (.textReply "no json here") (fun _ => .err "unused") =
      (.ok [] (some (analyzeBrandVoice
        (examplesToUse (some [JSVal.vstr "We ship fast.", JSVal.vstr "Bold moves."]))
        (.textReply "no json here")).1), 1) := by
  exact c7_analyze_only_branch _ _ _ (by simp [examplesToUse]) rfl

/-- **C8.** For a request that does not hit the analyze-only shortcut, a
missing or empty `topic`, `industry` or `formats` makes `POST` fail with
the 400 validation error and perform no Model Gateway calls at all (the
call counter is 0: neither analysis nor any per-format generation runs). -/
theorem c8_validation_before_gateway (body : RequestBody) (agw : GwOutcome)
    (ggw : String → GwOutcome)
    (hnoshort : ¬(examplesToUse body.brandVoiceExamples ≠ [] ∧
      formatsEmpty body.formats = true))
    (hval : truthyOptStr body.topic = false ∨ truthyOptStr body.industry = false ∨
      formatsEmpty body.formats = true) :
    POST true body agw ggw =
      (.err "Missing required fields: topic, industry, and at least one format are required" 400,
       0) := by
  have hbranch : (!(examplesToUse body.brandVoiceExamples).isEmpty &&
      formatsEmpty body.formats) = false := by
    by_cases hf : formatsEmpty body.formats = true
    · have hempty : examplesToUse body.brandVoiceExamples = [] := by
        by_contra hne
        exact hnoshort ⟨hne, hf⟩
      simp [hempty, hf]
    · have hf2 : formatsEmpty body.formats = false := by
        cases h2 : formatsEmpty body.formats
        · rfl
        · exact absurd h2 hf
      simp [hf2]
  have hcond : (!truthyOptStr body.topic || !truthyOptStr body.industry ||
      formatsEmpty body.formats) = true := by
    rcases hval with h | h | h <;> simp [h]
  simp [POST, hbranch, hcond]

/-- Witness for C8: empty topic with a non-empty format list is rejected
with 400 and zero gateway calls. -/
theorem c8_validation_before_gateway_witness :
    POST true ⟨some "", some "FinTech", some ["blog"], none, none⟩
        (.textReply "unused") (fun _ => .textReply "unused") =
      (.err "Missing required fields: topic, industry, and at least one format are required" 400,
       0) := by
  exact c8_validation_before_gateway _ _ _ (by simp [examplesToUse]) (Or.inl rfl)

theorem generateAfterContext_format (format : String) (terms : Option (List JSVal))
    (gw : GwOutcome) : (generateAfterContext format terms gw).format = format := by
  unfold generateAfterContext
  cases gw with
  | err m => rfl
  | nonText => rfl
  | textReply t =>
    cases terms with
    | none => rfl
    | some l =>
      by_cases h1 : l.isEmpty
      · simp [h1]
      · simp only [h1, Bool.false_eq_true, if_false]
        by_cases h2 : l.all fun tv => (jsStr? tv).isSome
        · simp [h2]
        · simp [h2, errorContent]

theorem generate_ok_inv (topic industry format : String) (bv : Option JSVal)
    (gw : GwOutcome) (g : GeneratedContent)
    (h : generateContentForFormat topic industry format bv gw = .ok g) :
    ∃ terms, g = generateAfterContext format terms gw := by
  unfold generateContentForFormat at h
  cases bv with
  | none =>
    simp only [Except.ok.injEq] at h
    exact ⟨none, h.symm⟩
  | some v =>
    by_cases hv : jsTruthy v
    · simp only [hv, if_true] at h
      cases hobj : objGet v "terminology" with
      | varr terms =>
        rw [hobj] at h
        simp only [Except.ok.injEq] at h
        exact ⟨some terms, h.symm⟩
      | vnull => rw [hobj] at h; simp at h
      | vundefined => rw [hobj] at h; simp at h
      | vbool b => rw [hobj] at h; simp at h
      | vnum n => rw [hobj] at h; simp at h
      | vstr s => rw [hobj] at h; simp at h
      | vobj fs => rw [hobj] at h; simp at h
    · simp only [hv, Bool.false_eq_true, if_false, Except.ok.injEq] at h
      exact ⟨none, h.symm⟩

theorem generate_format_eq (topic industry format : String) (bv : Option JSVal)
    (gw : GwOutcome) (g : GeneratedContent)
    (h : generateContentForFormat topic industry format bv gw = .ok g) :
    g.format = format := by
  obtain ⟨terms, ht⟩ := generate_ok_inv topic industry format bv gw g h
  rw [ht]
  exact generateAfterContext_format format terms gw

theorem collectResults_ok_length (l : List (Except String GeneratedContent))
    (cs : List GeneratedContent) (h : collectResults l = .ok cs) :
    cs.length = l.length := by
  induction l generalizing cs with
  | nil =>
    simp only [collectResults, Except.ok.injEq] at h
    subst h
    rfl
  | cons x rest ih =>
    cases x with
    | error m => simp [collectResults] at h
    | ok g =>
      simp only [collectResults] at h
      cases hr : collectResults rest with
      | error m => rw [hr] at h; simp [Except.map] at h
      | ok cs2 =>
        rw [hr] at h
        simp only [Except.map, Except.ok.injEq] at h
        subst h
        simp [ih cs2 hr]

theorem collectResults_ok_get (l : List (Except String GeneratedContent))
    (cs : List GeneratedContent) (h : collectResults l = .ok cs) :
    ∀ i : Nat, cs[i]?.map Except.ok = l[i]? := by
  induction l generalizing cs with
  | nil =>
    simp only [collectResults, Except.ok.injEq] at h
    subst h
    intro i
    rfl
  | cons x rest ih =>
    cases x with
    | error m => simp [collectResults] at h
    | ok g =>
      simp only [collectResults] at h
      cases hr : collectResults rest with
      | error m => rw [hr] at h; simp [Except.map] at h
      | ok cs2 =>
        rw [hr] at h
        simp only [Except.map, Except.ok.injEq] at h
        subst h
        intro i
        cases i with
        | zero => simp
        | succ j => simpa using ih cs2 hr j

/-- **C4.** Whenever a request with `formats = fl` gets a success response,
its `contents` list has exactly one entry per requested format and the
`i`-th entry has the `i`-th requested format: the output order matches the
input order (the fan-out joins the per-format results by position, so
completion order cannot permute them). -/
theorem c4_output_order (body : RequestBody) (agw : GwOutcome)
    (ggw : String → GwOutcome) (fl : List String)
    (contents : List GeneratedContent) (bva : Option JSVal) (n : Nat)
    (hf : body.formats = some fl)
    (hok : POST true body agw ggw = (.ok contents bva, n)) :
    contents.length = fl.length ∧
    ∀ i : Nat, contents[i]?.map GeneratedContent.format = fl[i]? := by
  unfold POST at hok
  rw [hf] at hok
  simp only [Bool.not_true, Bool.false_eq_true, if_false, Option.getD_some] at hok
  split at hok
  · -- analyze-only branch: contents = [] and fl = []
    rename_i hcond
    have hfl : fl = [] := by
      have := (Bool.and_eq_true _ _).mp hcond
      simpa [formatsEmpty, List.isEmpty_iff] using this.2
    simp only [Prod.mk.injEq, HttpResponse.ok.injEq] at hok
    obtain ⟨⟨hc, _⟩, _⟩ := hok
    subst hc
    subst hfl
    exact ⟨rfl, fun i => rfl⟩
  · split at hok
    · -- validation failure: not a success response
      simp at hok
    · -- generate branch
      split at hok
      · -- Promise.all rejected: not a success response
        simp at hok
      · rename_i cs hcollect
        simp only [Prod.mk.injEq, HttpResponse.ok.injEq] at hok
        obtain ⟨⟨hc, -⟩, -⟩ := hok
        rw [← hc]
        have hlen := collectResults_ok_length _ _ hcollect
        have hget := collectResults_ok_get _ _ hcollect
        constructor
        · simpa using hlen
        · intro i
          have hi := hget i
          rw [List.getElem?_map] at hi
          cases hfi : fl[i]? with
          | none =>
            rw [hfi] at hi
            simp only [Option.map_none'] at hi
            cases hci : cs[i]? with
            | none => simp [hfi, hci]
            | some g => rw [hci] at hi; simp at hi
          | some f =>
            rw [hfi] at hi
            cases hci : cs[i]? with
            | none => rw [hci] at hi; simp at hi
            | some g =>
              rw [hci] at hi
              simp only [Option.map_some'] at hi
              have hg := Option.some.inj hi
              simp only [Option.map_some', Option.some.injEq]
              exact generate_format_eq _ _ _ _ _ _ hg.symm

/-- Witness for C4: two formats, replies supplied for both; the first entry
is the first requested format. -/
theorem c4_output_order_witness :
    ([⟨"email", "reply-email", none⟩, ⟨"blog", "reply-blog", none⟩] :
        List GeneratedContent).length = (["email", "blog"] : List String).length ∧
    (([⟨"email", "reply-email", none⟩, ⟨"blog", "reply-blog", none⟩] :
        List GeneratedContent)[0]?).map GeneratedContent.format =
      (["email", "blog"] : List String)[0]? := by
  have h := c4_output_order ⟨some "t", some "i", some ["email", "blog"], none, none⟩
    (.textReply "unused") (fun f => .textReply ("reply-" ++ f)) ["email", "blog"]
    [⟨"email", "reply-email", none⟩, ⟨"blog", "reply-blog", none⟩] none 2 rfl rfl
  exact ⟨h.1, h.2 0⟩

theorem ne_empty_isEmpty_false (s : String) (h : s ≠ "") : s.isEmpty = false := by
  cases he : s.isEmpty
  · rfl
  · exact absurd ((String.isEmpty_iff s).mp he) h

theorem collect_map_all_ok (l : List String) (F : String → Except String GeneratedContent)
    (G : String → GeneratedContent) (h : ∀ x ∈ l, F x = .ok (G x)) :
    collectResults (l.map F) = .ok (l.map G) := by
  induction l with
  | nil => rfl
  | cons x rest ih =>
    rw [List.map_cons, List.map_cons]
    rw [h x (List.mem_cons_self x rest)]
    show (collectResults (rest.map F)).map _ = _
    rw [ih fun y hy => h y (List.mem_cons_of_mem x hy)]
    rfl

theorem generateAfterContext_strings_content (format t : String) (l : List String) :
    (generateAfterContext format (some (l.map .vstr)) (.textReply t)).content = t := by
  unfold generateAfterContext
  by_cases h : (l.map JSVal.vstr).isEmpty
  · simp [h]
  · simp [h, all_isSome_map_vstr]

/-- **C5.** When the gateway fails for exactly one requested format and
returns text for every other, the response is still a success with one
entry per requested format: the failing format's entry is the inline
error string embedding the failure reason with no `consistencyScore`,
while every other format's entry is exactly what a lone successful call
for that format produces — its reply text with a score computed from that
reply only, unaffected by the failure. -/
theorem c5_single_failure_containment (topic industry : String)
    (p : BrandVoiceAnalysis) (fl : List String) (agw : GwOutcome)
    (ggw : String → GwOutcome) (i : Nat) (fi m : String)
    (htopic : topic ≠ "") (hind : industry ≠ "")
    (hfi : fl[i]? = some fi) (herr : ggw fi = .err m)
    (hothers : ∀ j : Nat, j ≠ i → ∀ f, fl[j]? = some f → ∃ t, ggw f = .textReply t) :
    POST true ⟨some topic, some industry, some fl, some (profileVal p), none⟩ agw ggw =
      (.ok (fl.map fun f => generateAfterContext f (some (p.terminology.map .vstr)) (ggw f))
        (some (profileVal p)), fl.length) ∧
    (fl.map fun f => generateAfterContext f (some (p.terminology.map .vstr)) (ggw f))[i]? =
      some (errorContent fi m) ∧
    (errorContent fi m).consistencyScore = none ∧
    ∀ j : Nat, j ≠ i → ∀ f t, fl[j]? = some f → ggw f = .textReply t →
      (fl.map fun f => generateAfterContext f (some (p.terminology.map .vstr)) (ggw f))[j]? =
        some (generateAfterContext f (some (p.terminology.map .vstr)) (.textReply t)) ∧
      (generateAfterContext f (some (p.terminology.map .vstr)) (.textReply t)).content = t := by
  have hflne : fl ≠ [] := by
    intro h
    subst h
    simp at hfi
  have hT : truthyOptStr (some topic) = true := by
    simp [truthyOptStr, ne_empty_isEmpty_false topic htopic]
  have hI : truthyOptStr (some industry) = true := by
    simp [truthyOptStr, ne_empty_isEmpty_false industry hind]
  have hFl : formatsEmpty (some fl) = false := by
    simp [formatsEmpty, List.isEmpty_iff, hflne]
  have hcollect := collect_map_all_ok fl
    (fun f => generateContentForFormat topic industry f (some (profileVal p)) (ggw f))
    (fun f => generateAfterContext f (some (p.terminology.map .vstr)) (ggw f))
    (fun f _ => generate_profileVal topic industry f p (ggw f))
  refine ⟨?_, ?_, rfl, ?_⟩
  · unfold POST
    simp [hT, hI, hFl, examplesToUse, jsTruthy_profileVal,
      objGet_profileVal_terminology, genReachesGateway, hcollect]
  · rw [List.getElem?_map, hfi]
    simp only [Option.map_some', Option.some.injEq]
    rw [herr]
    rfl
  · intro j hj f t hfj htj
    constructor
    · rw [List.getElem?_map, hfj]
      simp only [Option.map_some', Option.some.injEq]
      rw [htj]
    · exact generateAfterContext_strings_content f t p.terminology

/-- Witness for C5: `formats = ["email","blog"]`, the blog call throws and
the email call succeeds; the response has two entries, the blog entry is
the inline error without a score, and the email entry carries the email
reply. -/
theorem c5_single_failure_containment_witness :
    POST true ⟨some "t", some "i", some ["email", "blog"], some (profileVal defaultProfile), none⟩
        (.textReply "unused")
        (fun f => if f = "blog" then .err "boom" else .textReply "email text") =
      (.ok ((["email", "blog"] : List String).map fun f =>
          generateAfterContext f (some (defaultProfile.terminology.map .vstr))
            (if f = "blog" then .err "boom" else .textReply "email text"))
        (some (profileVal defaultProfile)), 2) ∧
    ((["email", "blog"] : List String).map fun f =>
        generateAfterContext f (some (defaultProfile.terminology.map .vstr))
          (if f = "blog" then .err "boom" else .textReply "email text"))[1]? =
      some (errorContent "blog" "boom") ∧
    (errorContent "blog" "boom").consistencyScore = none ∧
    ((["email", "blog"] : List String).map fun f =>
        generateAfterContext f (some (defaultProfile.terminology.map .vstr))
          (if f = "blog" then .err "boom" else .textReply "email text"))[0]? =
      some (generateAfterContext "email" (some (defaultProfile.terminology.map .vstr))
        (.textReply "email text")) ∧
    (generateAfterContext "email" (some (defaultProfile.terminology.map .vstr))
      (.textReply "email text")).content = "email text" := by
  have h := c5_single_failure_containment "t" "i" defaultProfile ["email", "blog"]
    (.textReply "unused") (fun f => if f = "blog" then .err "boom" else .textReply "email text")
    1 "blog" "boom" (by decide) (by decide) rfl rfl
    (by
      intro j hj f hfj
      refine ⟨"email text", ?_⟩
      have hj0 : j = 0 := by
        by_contra hne
        have : (["email", "blog"] : List String)[j]? = none := by
          cases j with
          | zero => exact absurd rfl hne
          | succ k =>
            cases k with
            | zero => exact absurd rfl hj
            | succ k2 => rfl
        rw [this] at hfj
        exact Option.noConfusion hfj
      subst hj0
      have : f = "email" := by
        simp at hfj
        exact hfj.symm
      subst this
      rfl)
  obtain ⟨h1, h2, h3, h4⟩ := h
  exact ⟨h1, h2, h3, (h4 0 (by decide) "email" "email text" rfl rfl).1,
    (h4 0 (by decide) "email" "email text" rfl rfl).2⟩

/-! ### Parser roundtrip lemmas for rendered profiles -/

theorem string_mk_data (s : String) : String.mk s.data = s := by
  cases s
  rfl

theorem psb_safe (s : List Char) (hs : ∀ c ∈ s, SafeChar c) (rest : List Char) :
    parseStrBody (s ++ '"' :: rest) = some (s, rest) := by
  induction s with
  | nil =>
    rw [List.nil_append, parseStrBody.eq_def]
    rfl
  | cons c cs ih =>
    have hc := hs c (List.mem_cons_self c cs)
    have hcs : ∀ x ∈ cs, SafeChar x := fun x hx => hs x (List.mem_cons_of_mem c hx)
    obtain ⟨h32, hq, hbs, -⟩ := hc
    rw [List.cons_append]
    rw [parseStrBody.eq_def]
    simp only [if_neg hq, if_neg hbs, if_neg (by omega : ¬ c.toNat < 32)]
    rw [ih hcs]
    rfl

theorem skipWs_cons_neg (c : Char) (l : List Char) (h : isJsonWs c = false) :
    skipWs (c :: l) = c :: l := by
  simp [skipWs, List.dropWhile_cons, h]

theorem parseVal_str (fuel : Nat) (s : List Char) (hs : ∀ c ∈ s, SafeChar c)
    (rest : List Char) :
    parseVal (fuel + 1) ('"' :: (s ++ '"' :: rest)) =
      some (.vstr (String.mk s), rest) := by
  rw [parseVal]
  rw [skipWs_cons_neg '"' _ rfl]
  simp only [reduceIte, Char.reduceEq]
  rw [psb_safe s hs rest]
  rfl

theorem parseElems_strings (l : List String) (hl : l ≠ [])
    (hsafe : ∀ t ∈ l, SafeStr t) :
    ∀ fuel rest, l.length + 1 ≤ fuel →
    parseElems fuel (renderTerms l ++ ']' :: rest) = some (l.map .vstr, rest) := by
  induction l with
  | nil => exact absurd rfl hl
  | cons t ts ih =>
    intro fuel rest hfuel
    simp only [List.length_cons] at hfuel
    obtain ⟨f, rfl⟩ : ∃ f, fuel = f + 1 := ⟨fuel - 1, by omega⟩
    obtain ⟨g, rfl⟩ : ∃ g, f = g + 1 := ⟨f - 1, by omega⟩
    have htsafe : SafeStr t := hsafe t (List.mem_cons_self t ts)
    cases ts with
    | nil =>
      rw [renderTerms, renderStr]
      rw [parseElems]
      simp only [List.cons_append, List.append_assoc, List.singleton_append,
        List.nil_append]
      rw [parseVal_str g t.data htsafe (']' :: rest)]
      simp only []
      rw [skipWs_cons_neg ']' _ rfl]
      simp [string_mk_data]
    | cons t2 ts2 =>
      rw [renderTerms, renderStr]
      rw [parseElems]
      simp only [List.cons_append, List.append_assoc, List.singleton_append,
        List.nil_append]
      rw [parseVal_str g t.data htsafe
        (',' :: (renderTerms (t2 :: ts2) ++ ']' :: rest))]
      simp only []
      rw [skipWs_cons_neg ',' _ rfl]
      simp only []
      rw [ih (List.cons_ne_nil t2 ts2)
        (fun x hx => hsafe x (List.mem_cons_of_mem t hx)) (g + 1) rest (by
          simp only [List.length_cons] at hfuel ⊢
          omega)]
      simp only [Option.map_some', string_mk_data, List.map_cons]

theorem parseVal_arr (l : List String) (hsafe : ∀ t ∈ l, SafeStr t) :
    ∀ fuel rest, l.length + 2 ≤ fuel →
    parseVal fuel ('[' :: (renderTerms l ++ ']' :: rest)) =
      some (.varr (l.map .vstr), rest) := by
  intro fuel rest hfuel
  obtain ⟨f, rfl⟩ : ∃ f, fuel = f + 1 := ⟨fuel - 1, by omega⟩
  rw [parseVal]
  rw [skipWs_cons_neg '[' _ rfl]
  simp only [reduceIte, Char.reduceEq]
  cases l with
  | nil =>
    rw [renderTerms]
    simp only [List.nil_append]
    rw [skipWs_cons_neg ']' _ rfl]
    rfl
  | cons t ts =>
    have hhead : ∃ tail, renderTerms (t :: ts) = '"' :: tail := by
      cases ts with
      | nil => exact ⟨t.data ++ ['"'], rfl⟩
      | cons t2 ts2 => exact ⟨t.data ++ ['"'] ++ ',' :: renderTerms (t2 :: ts2), rfl⟩
    obtain ⟨tail, htail⟩ := hhead
    have hskip : skipWs (renderTerms (t :: ts) ++ ']' :: rest) =
        renderTerms (t :: ts) ++ ']' :: rest := by
      rw [htail, List.cons_append]
      exact skipWs_cons_neg '"' _ rfl
    rw [hskip]
    have hmatch : (match renderTerms (t :: ts) ++ ']' :: rest with
        | ']' :: r2 => some (JSVal.varr [], r2)
        | r2 => Option.map (fun p => (JSVal.varr p.1, p.2)) (parseElems f r2)) =
        Option.map (fun p => (JSVal.varr p.1, p.2))
          (parseElems f (renderTerms (t :: ts) ++ ']' :: rest)) := by
      rw [htail, List.cons_append]
      rfl
    rw [hmatch]
    rw [parseElems_strings (t :: ts) (List.cons_ne_nil t ts) hsafe f rest (by
      simp only [List.length_cons] at hfuel ⊢
      omega)]
    rfl

theorem parseMembers_step (key : List Char) (hkey : ∀ c ∈ key, SafeChar c)
    (fuel : Nat) (cs : List Char) :
    parseMembers (fuel + 1) ('"' :: (key ++ '"' :: ':' :: cs)) =
      (match parseVal fuel cs with
       | none => none
       | some (v, r4) =>
         match skipWs r4 with
         | ',' :: r5 => (parseMembers fuel r5).map fun p => ((String.mk key, v) :: p.1, p.2)
         | '}' :: r5 => some ([(String.mk key, v)], r5)
         | _ => none) := by
  rw [parseMembers]
  rw [skipWs_cons_neg '"' _ rfl]
  simp only []
  rw [psb_safe key hkey (':' :: cs)]
  simp only []
  rw [skipWs_cons_neg ':' _ rfl]
  rfl

theorem pm_step_tone (fuel : Nat) (cs : List Char) :
    parseMembers (fuel + 1) ('"' :: 't' :: 'o' :: 'n' :: 'e' :: '"' :: ':' :: cs) =
      (match parseVal fuel cs with
       | none => none
       | some (v, r4) =>
         match skipWs r4 with
         | ',' :: r5 => (parseMembers fuel r5).map fun p => (("tone", v) :: p.1, p.2)
         | '}' :: r5 => some ([("tone", v)], r5)
         | _ => none) := by
  have h := parseMembers_step ['t', 'o', 'n', 'e'] (by decide) fuel cs
  simp only [List.cons_append, List.nil_append] at h
  exact h

theorem pm_step_style (fuel : Nat) (cs : List Char) :
    parseMembers (fuel + 1) ('"' :: 's' :: 't' :: 'y' :: 'l' :: 'e' :: '"' :: ':' :: cs) =
      (match parseVal fuel cs with
       | none => none
       | some (v, r4) =>
         match skipWs r4 with
         | ',' :: r5 => (parseMembers fuel r5).map fun p => (("style", v) :: p.1, p.2)
         | '}' :: r5 => some ([("style", v)], r5)
         | _ => none) := by
  have h := parseMembers_step ['s', 't', 'y', 'l', 'e'] (by decide) fuel cs
  simp only [List.cons_append, List.nil_append] at h
  exact h

theorem pm_step_terminology (fuel : Nat) (cs : List Char) :
    parseMembers (fuel + 1) ('"' :: 't' :: 'e' :: 'r' :: 'm' :: 'i' :: 'n' :: 'o' ::
        'l' :: 'o' :: 'g' :: 'y' :: '"' :: ':' :: cs) =
      (match parseVal fuel cs with
       | none => none
       | some (v, r4) =>
         match skipWs r4 with
         | ',' :: r5 => (parseMembers fuel r5).map fun p => (("terminology", v) :: p.1, p.2)
         | '}' :: r5 => some ([("terminology", v)], r5)
         | _ => none) := by
  have h := parseMembers_step ['t', 'e', 'r', 'm', 'i', 'n', 'o', 'l', 'o', 'g', 'y']
    (by decide) fuel cs
  simp only [List.cons_append, List.nil_append] at h
  exact h

theorem pm_step_structure (fuel : Nat) (cs : List Char) :
    parseMembers (fuel + 1) ('"' :: 's' :: 't' :: 'r' :: 'u' :: 'c' :: 't' :: 'u' ::
        'r' :: 'e' :: '"' :: ':' :: cs) =
      (match parseVal fuel cs with
       | none => none
       | some (v, r4) =>
         match skipWs r4 with
         | ',' :: r5 => (parseMembers fuel r5).map fun p => (("structure", v) :: p.1, p.2)
         | '}' :: r5 => some ([("structure", v)], r5)
         | _ => none) := by
  have h := parseMembers_step ['s', 't', 'r', 'u', 'c', 't', 'u', 'r', 'e']
    (by decide) fuel cs
  simp only [List.cons_append, List.nil_append] at h
  exact h

theorem parseMembers_profile (p : BrandVoiceAnalysis) (hp : SafeProfile p) :
    ∀ fuel rest, p.terminology.length + 5 ≤ fuel →
    parseMembers fuel (renderMembers p ++ '}' :: rest) =
      some ([("tone", JSVal.vstr p.tone), ("style", JSVal.vstr p.style),
             ("terminology", JSVal.varr (p.terminology.map JSVal.vstr)),
             ("structure", JSVal.vstr p.«structure»)], rest) := by
  obtain ⟨hT, hS, hTerm, hStruct⟩ := hp
  intro fuel rest hfuel
  obtain ⟨f1, rfl⟩ : ∃ f1, fuel = f1 + 1 := ⟨fuel - 1, by omega⟩
  obtain ⟨f2, rfl⟩ : ∃ f2, f1 = f2 + 1 := ⟨f1 - 1, by omega⟩
  obtain ⟨f3, rfl⟩ : ∃ f3, f2 = f3 + 1 := ⟨f2 - 1, by omega⟩
  obtain ⟨f4, rfl⟩ : ∃ f4, f3 = f4 + 1 := ⟨f3 - 1, by omega⟩
  obtain ⟨f5, rfl⟩ : ∃ f5, f4 = f5 + 1 := ⟨f4 - 1, by omega⟩
  rw [renderMembers]
  simp only [List.cons_append, List.append_assoc, List.nil_append]
  rw [pm_step_tone]
  rw [parseVal_str _ p.tone.data hT]
  simp only []
  rw [skipWs_cons_neg ',' _ rfl]
  simp only []
  rw [pm_step_style]
  rw [parseVal_str _ p.style.data hS]
  simp only []
  rw [skipWs_cons_neg ',' _ rfl]
  simp only []
  rw [pm_step_terminology]
  rw [parseVal_arr p.terminology hTerm (f5 + 1 + 1) _ (by omega)]
  simp only []
  rw [skipWs_cons_neg ',' _ rfl]
  simp only []
  rw [pm_step_structure]
  rw [parseVal_str _ p.«structure».data hStruct]
  simp only []
  rw [skipWs_cons_neg '}' _ rfl]
  simp [string_mk_data]

theorem parseVal_profile (p : BrandVoiceAnalysis) (hp : SafeProfile p) :
    ∀ fuel rest, p.terminology.length + 6 ≤ fuel →
    parseVal fuel ('{' :: (renderMembers p ++ '}' :: rest)) =
      some (profileVal p, rest) := by
  intro fuel rest hfuel
  obtain ⟨f, rfl⟩ : ∃ f, fuel = f + 1 := ⟨fuel - 1, by omega⟩
  rw [parseVal]
  rw [skipWs_cons_neg '{' _ rfl]
  simp only [reduceIte, Char.reduceEq]
  obtain ⟨tl, htl⟩ : ∃ tl, renderMembers p ++ '}' :: rest = '"' :: tl :=
    ⟨_, by rw [renderMembers, List.cons_append]⟩
  rw [htl, skipWs_cons_neg '"' _ rfl]
  rw [← htl]
  have hm : (match renderMembers p ++ '}' :: rest with
      | '}' :: r2 => some (JSVal.vobj [], r2)
      | r2 => Option.map (fun q => (JSVal.vobj q.1, q.2)) (parseMembers f r2)) =
      Option.map (fun q => (JSVal.vobj q.1, q.2))
        (parseMembers f (renderMembers p ++ '}' :: rest)) := by
    rw [htl]
    rfl
  rw [hm]
  rw [parseMembers_profile p hp f rest (by omega)]
  rfl

theorem renderTerms_len (l : List String) : l.length ≤ (renderTerms l).length := by
  induction l with
  | nil => exact Nat.zero_le _
  | cons t ts ih =>
    cases ts with
    | nil => simp [renderTerms, renderStr]
    | cons t2 ts2 =>
      rw [renderTerms]
      rw [List.length_append]
      simp only [renderStr, List.length_cons, List.length_append, List.length_singleton]
      simp only [List.length_cons] at ih ⊢
      omega

theorem renderProfile_len (p : BrandVoiceAnalysis) :
    p.terminology.length + 6 ≤ (renderProfile p).length + 1 := by
  have h := renderTerms_len p.terminology
  rw [renderProfile, renderMembers]
  simp only [List.length_cons, List.length_append, List.length_singleton]
  omega

theorem jsonParse_render (p : BrandVoiceAnalysis) (hp : SafeProfile p) :
    jsonParseChars (renderProfile p) = some (profileVal p) := by
  unfold jsonParseChars
  have hshape : renderProfile p = '{' :: (renderMembers p ++ '}' :: []) := rfl
  have hlen := renderProfile_len p
  rw [hshape] at hlen ⊢
  rw [parseVal_profile p hp _ [] hlen]
  rfl

/-! ### Extraction lemmas: trim, fence match, brace span -/

theorem dropWhile_append_cons_neg (p : Char → Bool) (a : List Char) (x : Char)
    (bs : List Char) (hx : p x = false) :
    (a ++ x :: bs).dropWhile p = a.dropWhile p ++ x :: bs := by
  induction a with
  | nil => simp [List.dropWhile_cons, hx]
  | cons y ys ih =>
    by_cases hy : p y
    · simp [List.dropWhile_cons, hy, ih]
    · simp [List.dropWhile_cons, hy]

theorem jsTrim_wrap (pre ms post : List Char) (c d : Char)
    (hc : jsWs c = false) (hd : jsWs d = false) :
    jsTrim (pre ++ (c :: ms ++ [d]) ++ post) =
      pre.dropWhile jsWs ++ (c :: ms ++ [d]) ++ (post.reverse.dropWhile jsWs).reverse := by
  unfold jsTrim
  have h1 : (pre ++ (c :: ms ++ [d]) ++ post).dropWhile jsWs =
      pre.dropWhile jsWs ++ (c :: (ms ++ d :: post)) := by
    have := dropWhile_append_cons_neg jsWs pre c (ms ++ d :: post) hc
    simpa [List.append_assoc, List.cons_append] using this
  rw [h1]
  have h2 : (pre.dropWhile jsWs ++ (c :: (ms ++ d :: post))).reverse =
      post.reverse ++ d :: (ms.reverse ++ c :: (pre.dropWhile jsWs).reverse) := by
    simp [List.reverse_append, List.reverse_cons, List.append_assoc]
  rw [h2]
  have h3 : (post.reverse ++ d :: (ms.reverse ++ c :: (pre.dropWhile jsWs).reverse)).dropWhile jsWs =
      post.reverse.dropWhile jsWs ++ d :: (ms.reverse ++ c :: (pre.dropWhile jsWs).reverse) :=
    dropWhile_append_cons_neg jsWs post.reverse d _ hd
  rw [h3]
  simp [List.reverse_append, List.reverse_cons, List.append_assoc]

theorem matchFenceAt_no_tick (x : Char) (l : List Char) (hx : x ≠ '`') :
    matchFenceAt (x :: l) = none := by
  unfold matchFenceAt
  split
  · rename_i rest heq
    injection heq with h1 _
    exact absurd h1 hx
  · rfl

theorem fenceMatch_append_no_tick (pre cs : List Char) (h : ∀ c ∈ pre, c ≠ '`') :
    fenceMatch (pre ++ cs) = fenceMatch cs := by
  induction pre with
  | nil => rfl
  | cons x xs ih =>
    rw [List.cons_append]
    rw [fenceMatch]
    rw [matchFenceAt_no_tick x _ (h x (List.mem_cons_self x xs))]
    exact ih fun c hc => h c (List.mem_cons_of_mem x hc)

theorem fenceMatch_none_no_tick (cs : List Char) (h : ∀ c ∈ cs, c ≠ '`') :
    fenceMatch cs = none := by
  induction cs with
  | nil => rfl
  | cons x xs ih =>
    rw [fenceMatch]
    rw [matchFenceAt_no_tick x _ (h x (List.mem_cons_self x xs))]
    exact ih fun c hc => h c (List.mem_cons_of_mem x hc)

theorem findLastBrace_none (cs : List Char) (h : ∀ c ∈ cs, c ≠ '}') :
    findLastBrace cs = none := by
  induction cs with
  | nil => rfl
  | cons x xs ih =>
    rw [findLastBrace]
    rw [ih fun c hc => h c (List.mem_cons_of_mem x hc)]
    simp [h x (List.mem_cons_self x xs)]

theorem findLastBrace_last (a tail : List Char) (hclose : closeOk tail = true)
    (htail : ∀ c ∈ tail, c ≠ '}') :
    findLastBrace (a ++ '}' :: tail) = some (a ++ ['}'], tail) := by
  induction a with
  | nil =>
    rw [List.nil_append, findLastBrace]
    rw [findLastBrace_none tail htail]
    simp [hclose]
  | cons x xs ih =>
    rw [List.cons_append, findLastBrace]
    rw [ih]
    rfl

theorem braceSpan_render (p : BrandVoiceAnalysis) :
    braceSpan (renderProfile p) = some (renderProfile p) := by
  unfold braceSpan renderProfile
  have h1 : ('{' :: renderMembers p ++ ['}']).dropWhile (fun c => c ≠ '{') =
      '{' :: renderMembers p ++ ['}'] := by
    rw [List.cons_append]
    simp [List.dropWhile_cons]
  rw [h1]
  have h2 : ('{' :: renderMembers p ++ ['}']).reverse =
      '}' :: ((renderMembers p).reverse ++ ['{']) := by
    simp [List.reverse_append, List.reverse_cons]
  rw [h2]
  have h3 : ('}' :: ((renderMembers p).reverse ++ ['{'])).dropWhile (fun c => c ≠ '}') =
      '}' :: ((renderMembers p).reverse ++ ['{']) := by
    simp [List.dropWhile_cons]
  rw [h3]
  simp [List.reverse_append, List.reverse_cons]

theorem braceSpan_embedded (p : BrandVoiceAnalysis) (pre post : List Char)
    (hpre : ∀ c ∈ pre, c ≠ '{') (hpost : ∀ c ∈ post, c ≠ '}') :
    braceSpan (pre ++ (renderProfile p ++ post)) = some (renderProfile p) := by
  unfold braceSpan renderProfile
  have hpredrop : pre.dropWhile (fun c => c ≠ '{') = [] := by
    rw [List.dropWhile_eq_nil_iff]
    intro x hx
    simp [hpre x hx]
  have h1 : (pre ++ (('{' :: renderMembers p ++ ['}']) ++ post)).dropWhile
      (fun c => c ≠ '{') = '{' :: (renderMembers p ++ '}' :: post) := by
    have := dropWhile_append_cons_neg (fun c => decide (c ≠ '{')) pre '{'
      ((renderMembers p ++ ['}']) ++ post) (by simp)
    simp only [List.cons_append, List.append_assoc, List.singleton_append] at this ⊢
    rw [this, hpredrop]
    rfl
  simp only [List.cons_append, List.append_assoc, List.singleton_append] at h1 ⊢
  rw [h1]
  have h2 : ('{' :: (renderMembers p ++ '}' :: post)).reverse =
      post.reverse ++ '}' :: ((renderMembers p).reverse ++ ['{']) := by
    simp [List.reverse_append, List.reverse_cons, List.append_assoc]
  rw [h2]
  have h3 : (post.reverse ++ '}' :: ((renderMembers p).reverse ++ ['{'])).dropWhile
      (fun c => c ≠ '}') = post.reverse.dropWhile (fun c => c ≠ '}') ++
        '}' :: ((renderMembers p).reverse ++ ['{']) :=
    dropWhile_append_cons_neg (fun c => decide (c ≠ '}')) post.reverse '}' _ (by simp)
  rw [h3]
  have hpostdrop : post.reverse.dropWhile (fun c => c ≠ '}') = [] := by
    rw [List.dropWhile_eq_nil_iff]
    intro x hx
    simp [hpost x (List.mem_reverse.mp hx)]
  rw [hpostdrop]
  simp [List.reverse_append, List.reverse_cons]

theorem mem_dropWhile (p : Char → Bool) (l : List Char) (c : Char)
    (h : c ∈ l.dropWhile p) : c ∈ l := by
  induction l with
  | nil => simpa using h
  | cons x xs ih =>
    rw [List.dropWhile_cons] at h
    by_cases hx : p x
    · simp only [hx, if_true] at h
      exact List.mem_cons_of_mem x (ih h)
    · simp only [hx, Bool.false_eq_true, if_false] at h
      exact h

theorem mem_jsTrim (cs : List Char) (c : Char) (h : c ∈ jsTrim cs) : c ∈ cs := by
  unfold jsTrim at h
  have h1 : c ∈ (cs.dropWhile jsWs).reverse := mem_dropWhile _ _ _ (List.mem_reverse.mp h)
  exact mem_dropWhile _ _ _ (List.mem_reverse.mp (by simpa using h1))

theorem not_mem_to_ne (x : Char) (l : List Char) (h : x ∉ l) : ∀ c ∈ l, c ≠ x :=
  fun c hc heq => h (heq ▸ hc)

theorem safeStr_not_tick (s : String) (hs : SafeStr s) : '`' ∉ s.data :=
  fun h => (hs _ h).2.2.2 rfl

theorem renderTerms_not_tick (l : List String) (hl : ∀ t ∈ l, SafeStr t) :
    '`' ∉ renderTerms l := by
  induction l with
  | nil => simp [renderTerms]
  | cons t ts ih =>
    cases ts with
    | nil =>
      rw [renderTerms]
      simp [renderStr, List.mem_append,
        safeStr_not_tick t (hl t (List.mem_cons_self t []))]
    | cons t2 ts2 =>
      rw [renderTerms]
      simp [renderStr, List.mem_append,
        safeStr_not_tick t (hl t (List.mem_cons_self t _)),
        ih fun x hx => hl x (List.mem_cons_of_mem t hx)]

theorem renderProfile_not_tick (p : BrandVoiceAnalysis) (hp : SafeProfile p) :
    '`' ∉ renderProfile p := by
  obtain ⟨hT, hS, hTerm, hStruct⟩ := hp
  simp [renderProfile, renderMembers, List.mem_append, List.mem_cons,
    safeStr_not_tick _ hT, safeStr_not_tick _ hS, safeStr_not_tick _ hStruct,
    renderTerms_not_tick _ hTerm]

theorem not_mem_dropWhile (p : Char → Bool) (l : List Char) (x : Char) (h : x ∉ l) :
    x ∉ l.dropWhile p := fun hm => h (mem_dropWhile _ _ _ hm)

theorem not_mem_rtrim (x : Char) (l : List Char) (h : x ∉ l) :
    x ∉ (l.reverse.dropWhile jsWs).reverse := by
  intro hm
  exact h (List.mem_reverse.mp (mem_dropWhile _ _ _ (List.mem_reverse.mp hm)))

theorem dropWhile_jsWs_cons_neg (c : Char) (l : List Char) (h : jsWs c = false) :
    (c :: l).dropWhile jsWs = c :: l := by
  simp [List.dropWhile_cons, h]

theorem mem_stripJsonTag (cs : List Char) (c : Char) (h : c ∈ stripJsonTag cs) :
    c ∈ cs := by
  unfold stripJsonTag at h
  split at h
  · rename_i r
    simp only [List.mem_cons]
    simp [h]
  · exact h

theorem matchFenceAt_no_brace (cs : List Char) (h : '{' ∉ cs) :
    matchFenceAt cs = none := by
  rw [matchFenceAt.eq_def]
  split
  · rename_i rest
    split
    · rename_i body heq2
      exfalso
      have h1 : '{' ∈ (stripJsonTag rest).dropWhile jsWs := by
        rw [heq2]
        exact List.mem_cons_self _ _
      have h2 : '{' ∈ rest := mem_stripJsonTag rest _ (mem_dropWhile _ _ _ h1)
      exact h (by simp [h2])
    · rfl
  · rfl

theorem fenceMatch_none_no_brace (cs : List Char) (h : '{' ∉ cs) :
    fenceMatch cs = none := by
  induction cs with
  | nil => rfl
  | cons x xs ih =>
    rw [fenceMatch]
    rw [matchFenceAt_no_brace (x :: xs) h]
    exact ih fun hm => h (List.mem_cons_of_mem x hm)

theorem braceSpan_none_no_brace (cs : List Char) (h : '{' ∉ cs) :
    braceSpan cs = none := by
  unfold braceSpan
  have h1 : cs.dropWhile (fun c => c ≠ '{') = [] := by
    rw [List.dropWhile_eq_nil_iff]
    intro x hx
    simp only [ne_eq, decide_eq_true_eq]
    intro heq
    exact h (heq ▸ hx)
  rw [h1]
  rfl

theorem matchFenceAt_fence (p : BrandVoiceAnalysis) (post : List Char)
    (hpost : '}' ∉ post) :
    matchFenceAt ('`' :: '`' :: '`' :: 'j' :: 's' :: 'o' :: 'n' :: '\n' ::
      (renderProfile p ++ ('\n' :: '`' :: '`' :: '`' :: post))) =
      some (renderProfile p) := by
  rw [matchFenceAt.eq_def]
  simp only []
  have hst : stripJsonTag ('j' :: 's' :: 'o' :: 'n' :: '\n' ::
      (renderProfile p ++ ('\n' :: '`' :: '`' :: '`' :: post))) =
      '\n' :: (renderProfile p ++ ('\n' :: '`' :: '`' :: '`' :: post)) := rfl
  rw [hst]
  have hdw : ('\n' :: (renderProfile p ++ ('\n' :: '`' :: '`' :: '`' :: post))).dropWhile
      jsWs = '{' :: (renderMembers p ++ '}' :: ('\n' :: '`' :: '`' :: '`' :: post)) := by
    rw [List.dropWhile_cons]
    simp only [show jsWs '\n' = true from rfl, if_true]
    rw [renderProfile]
    simp only [List.cons_append, List.append_assoc, List.singleton_append]
    exact dropWhile_jsWs_cons_neg '{' _ rfl
  rw [hdw]
  simp only []
  rw [findLastBrace_last (renderMembers p) ('\n' :: '`' :: '`' :: '`' :: post) rfl
    (by
      intro c hc
      simp only [List.mem_cons] at hc
      rcases hc with rfl | rfl | rfl | rfl | hc
      · decide
      · decide
      · decide
      · decide
      · exact not_mem_to_ne '}' post hpost c hc)]
  rfl

theorem extract_fenced (p : BrandVoiceAnalysis) (hp : SafeProfile p)
    (pre post : List Char) (hpre : '`' ∉ pre) (hpost : '}' ∉ post) :
    extractTextChars (pre ++ (fenceOpen ++ (renderProfile p ++ (fenceClose ++ post)))) =
      renderProfile p := by
  have hin : pre ++ (fenceOpen ++ (renderProfile p ++ (fenceClose ++ post))) =
      pre ++ ('`' :: ('`' :: '`' :: 'j' :: 's' :: 'o' :: 'n' :: '\n' ::
        (renderProfile p ++ ('\n' :: '`' :: '`' :: []))) ++ ['`']) ++ post := by
    simp [fenceOpen, fenceClose, List.cons_append, List.append_assoc]
  unfold extractTextChars afterFence
  rw [hin, jsTrim_wrap pre _ post '`' '`' rfl rfl]
  have hfm : fenceMatch (pre.dropWhile jsWs ++ ('`' :: ('`' :: '`' :: 'j' :: 's' :: 'o' ::
      'n' :: '\n' :: (renderProfile p ++ ('\n' :: '`' :: '`' :: []))) ++ ['`']) ++
      (post.reverse.dropWhile jsWs).reverse) = some (renderProfile p) := by
    rw [List.append_assoc]
    rw [fenceMatch_append_no_tick _ _
      (not_mem_to_ne '`' _ (not_mem_dropWhile jsWs pre '`' hpre))]
    have hshape : ('`' :: ('`' :: '`' :: 'j' :: 's' :: 'o' :: 'n' :: '\n' ::
        (renderProfile p ++ ('\n' :: '`' :: '`' :: []))) ++ ['`']) ++
        (post.reverse.dropWhile jsWs).reverse =
        '`' :: '`' :: '`' :: 'j' :: 's' :: 'o' :: 'n' :: '\n' ::
          (renderProfile p ++ ('\n' :: '`' :: '`' :: '`' ::
            (post.reverse.dropWhile jsWs).reverse)) := by
      simp [List.cons_append, List.append_assoc]
    rw [hshape]
    rw [fenceMatch]
    rw [matchFenceAt_fence p _ (not_mem_rtrim '}' post hpost)]
  rw [hfm]
  simp only []
  rw [braceSpan_render p]

theorem extract_embedded (p : BrandVoiceAnalysis) (hp : SafeProfile p)
    (pre post : List Char) (hpre1 : '{' ∉ pre) (hpre2 : '`' ∉ pre)
    (hpost1 : '}' ∉ post) (hpost2 : '`' ∉ post) :
    extractTextChars (pre ++ (renderProfile p ++ post)) = renderProfile p := by
  have hin : pre ++ (renderProfile p ++ post) =
      pre ++ ('{' :: renderMembers p ++ ['}']) ++ post := by
    rw [renderProfile]
    simp [List.append_assoc]
  unfold extractTextChars afterFence
  rw [hin, jsTrim_wrap pre _ post '{' '}' rfl rfl]
  have hfold : ('{' :: renderMembers p ++ ['}'] : List Char) = renderProfile p := rfl
  rw [hfold]
  have hfm : fenceMatch (pre.dropWhile jsWs ++ renderProfile p ++
      (post.reverse.dropWhile jsWs).reverse) = none := by
    apply fenceMatch_none_no_tick
    intro c hc
    simp only [List.mem_append] at hc
    rcases hc with (hc | hc) | hc
    · exact not_mem_to_ne '`' _ (not_mem_dropWhile jsWs pre '`' hpre2) c hc
    · exact not_mem_to_ne '`' _ (renderProfile_not_tick p hp) c hc
    · exact not_mem_to_ne '`' _ (not_mem_rtrim '`' post hpost2) c hc
  rw [hfm]
  have hbs : braceSpan (pre.dropWhile jsWs ++ renderProfile p ++
      (post.reverse.dropWhile jsWs).reverse) = some (renderProfile p) := by
    rw [List.append_assoc]
    exact braceSpan_embedded p _ _
      (not_mem_to_ne '{' _ (not_mem_dropWhile jsWs pre '{' hpre1))
      (not_mem_to_ne '}' _ (not_mem_rtrim '}' post hpost1))
  rw [hbs]

theorem extract_no_brace (R : List Char) (h : '{' ∉ R) :
    extractTextChars R = jsTrim R := by
  unfold extractTextChars afterFence
  have hmem : '{' ∉ jsTrim R := fun hm => h (mem_jsTrim R _ hm)
  rw [fenceMatch_none_no_brace _ hmem]
  rw [braceSpan_none_no_brace _ hmem]

theorem analyze_textReply (examples : List JSVal) (hex : examples ≠ []) (t : String) :
    analyzeBrandVoice examples (.textReply t) =
      ((jsonParseChars (extractTextChars t.data)).getD defaultProfileJS, true) := by
  unfold analyzeBrandVoice
  have he : examples.isEmpty = false := by simp [List.isEmpty_iff, hex]
  rw [he]
  simp only [Bool.false_eq_true, if_false]
  cases hq : jsonParseChars (extractTextChars t.data) <;> simp [Option.getD]

/-- **C6 counterexample.** The claim says the extraction parses the first
top-level JSON object span embedded anywhere in an unfenced reply; but the
regex `/\x7b[\s\S]*\x7d/` is greedy, spanning from the first open brace to
the *last* close brace.  For a reply containing two object spans the
spanned text is not valid JSON, so the analyzer falls back to the default
profile even though the first top-level span parses fine. -/
theorem c6_counterexample :
    analyzeBrandVoice [JSVal.vstr "ex"]
        (.textReply "a \x7b\"tone\":\"casual\"\x7d b \x7b\x7d") =
      (defaultProfileJS, true) ∧
    jsonParseChars ("\x7b\"tone\":\"casual\"\x7d".data) =
      some (.vobj [("tone", .vstr "casual")]) ∧
    subSearch ("\x7b\"tone\":\"casual\"\x7d".data)
      ("a \x7b\"tone\":\"casual\"\x7d b \x7b\x7d".data) = true :=
  ⟨rfl, rfl, rfl⟩

/-- **C6 (amended).** The analyzer's JSON extraction, applied to a model
reply: (1) parses a reply whose rendered profile object is wrapped in a
markdown ```json code fence, possibly surrounded by prose; (2) parses an
unfenced reply embedding the object anywhere, provided the prose before it
contains no open brace and the prose after it no close brace — the greedy
regex spans from the first `\x7b` to the last `\x7d`, not the first
top-level span; and (3) returns the default profile when the reply
contains no parsable JSON at all. -/
theorem c6_amended_extraction (examples : List JSVal) (p : BrandVoiceAnalysis)
    (pre post pre2 post2 : List Char) (noJson : String)
    (hex : examples ≠ []) (hp : SafeProfile p)
    (hpre : '`' ∉ pre) (hpost : '}' ∉ post)
    (hpre2a : '{' ∉ pre2) (hpre2b : '`' ∉ pre2)
    (hpost2a : '}' ∉ post2) (hpost2b : '`' ∉ post2)
    (hnj1 : '{' ∉ noJson.data)
    (hnj2 : jsonParseChars (jsTrim noJson.data) = none) :
    analyzeBrandVoice examples (.textReply (String.mk (pre ++ (fenceOpen ++
        (renderProfile p ++ (fenceClose ++ post)))))) = (profileVal p, true) ∧
    analyzeBrandVoice examples
        (.textReply (String.mk (pre2 ++ (renderProfile p ++ post2)))) =
      (profileVal p, true) ∧
    analyzeBrandVoice examples (.textReply noJson) = (defaultProfileJS, true) := by
  refine ⟨?_, ?_, ?_⟩
  · rw [analyze_textReply examples hex]
    have hdata : (String.mk (pre ++ (fenceOpen ++ (renderProfile p ++
        (fenceClose ++ post))))).data =
        pre ++ (fenceOpen ++ (renderProfile p ++ (fenceClose ++ post))) := rfl
    rw [hdata, extract_fenced p hp pre post hpre hpost, jsonParse_render p hp]
    rfl
  · rw [analyze_textReply examples hex]
    have hdata : (String.mk (pre2 ++ (renderProfile p ++ post2))).data =
        pre2 ++ (renderProfile p ++ post2) := rfl
    rw [hdata, extract_embedded p hp pre2 post2 hpre2a hpre2b hpost2a hpost2b,
      jsonParse_render p hp]
    rfl
  · rw [analyze_textReply examples hex]
    rw [extract_no_brace noJson.data hnj1, hnj2]
    rfl

/-- Witness for the amended C6 at a concrete profile and concrete prose
wrappers: a fenced reply, an unfenced reply, and an unparsable reply. -/
theorem c6_amended_extraction_witness :
    analyzeBrandVoice [JSVal.vstr "ex2"]
        (.textReply (String.mk ("Sure! Here is the analysis:\n".data ++ (fenceOpen ++
          (renderProfile ⟨"casual", "short", ["roi"], "list"⟩ ++
            (fenceClose ++ "\nEnjoy.".data)))))) =
      (profileVal ⟨"casual", "short", ["roi"], "list"⟩, true) ∧
    analyzeBrandVoice [JSVal.vstr "ex2"]
        (.textReply (String.mk ("Here you go: ".data ++
          (renderProfile ⟨"casual", "short", ["roi"], "list"⟩ ++ " Enjoy!".data)))) =
      (profileVal ⟨"casual", "short", ["roi"], "list"⟩, true) ∧
    analyzeBrandVoice [JSVal.vstr "ex2"] (.textReply "I cannot help with that.") =
      (defaultProfileJS, true) := by
  have h := c6_amended_extraction [JSVal.vstr "ex2"] ⟨"casual", "short", ["roi"], "list"⟩
    "Sure! Here is the analysis:\n".data "\nEnjoy.".data
    "Here you go: ".data " Enjoy!".data "I cannot help with that."
    (List.cons_ne_nil _ _) (by decide)
    (by decide) (by decide) (by decide) (by decide) (by decide) (by decide)
    (by decide) rfl
  exact ⟨h.1, h.2.1, h.2.2⟩

end ContentStudio
